import Mathlib

/-!
Verification of the HomeEnergyController decision core (EnergyController.py).

Shallow embedding conventions:
* Python numbers (SoC percentages, powers) are modelled as exact rationals `ℚ`;
  integer setpoints produced through `int(round(...))` are `ℤ`.
* Python `round` is round-half-to-even (`pyRound` below).
* Python `sorted(xs, key=f)` is the stable ascending sort, embedded as
  `List.insertionSort` with the non-strict key comparison (and the reversed
  comparison for `reverse=True`), which is extensionally the stable sort.
* Python `max(xs, key=f)` / `min(xs, key=f)` keep the first optimum; on an
  empty sequence they raise `ValueError`, an out-of-range index raises
  `IndexError`; fallible paths return `Except PyErr`.
* Dictionaries with the full key set (well-formed snapshots) are records.
-/

namespace EnergyController

/-- One battery snapshot: the dictionary fields used by the controller core
(`charge`, `isManual`, `manualSetPower`, `isAutomatic`, `ip`,
`effectivePower`, `efficiency`, `internalResistance`). -/
structure Battery where
  charge : ℚ
  isManual : Bool
  manualSetPower : ℤ
  isAutomatic : Bool
  ip : String
  effectivePower : ℚ
  efficiency : ℚ
  internalResistance : ℚ
  deriving DecidableEq, Repr, Inhabited

/-- Car state: the only field the core reads is `IsCarConnected`. -/
structure CarState where
  isCarConnected : Bool
  deriving DecidableEq, Repr, Inhabited

/-- The time context consumed by the core: `datetime.weekday()` (0 = Monday)
and `datetime.hour`. -/
structure PyTime where
  weekday : Nat
  hour : Nat
  deriving DecidableEq, Repr, Inhabited

/-- Python error conditions the core can raise, plus the spec's named
`InvalidInput` condition (which the source never raises anywhere). -/
inductive PyErr where
  | valueError
  | indexError
  | invalidInput
  deriving DecidableEq, Repr

/-- The result payload of `control_energy_flow`: output battery list,
`carState.CarIntendedPowerUsage`, and the `debug` fields. -/
structure ControlResult where
  batteries : List Battery
  carIntendedPowerUsage : ℤ
  effectiveP1 : ℚ
  oldAutoIdx : Option Nat
  newAutoIdx : Nat
  lowHours : Bool
  deriving DecidableEq, Repr

/-- Python's builtin `round` on exact values: round half to even. -/
def pyRound (q : ℚ) : ℤ :=
  if q - ⌊q⌋ = 1/2 then (if 2 ∣ ⌊q⌋ then ⌊q⌋ else ⌊q⌋ + 1) else ⌊q + 1/2⌋

/-- Python `max` over a nonempty list of rationals (first-element seed). -/
def listMaxQ : List ℚ → ℚ
  | [] => 0
  | x :: xs => xs.foldl max x

/-- Python `min` over a nonempty list of rationals (first-element seed). -/
def listMinQ : List ℚ → ℚ
  | [] => 0
  | x :: xs => xs.foldl min x

/-- `next((i for i, b in enumerate(bats) if p b), None)`: index of the first
element satisfying `p`. -/
def firstIdx (p : Battery → Bool) : List Battery → Option Nat
  | [] => none
  | b :: rest => if p b then some 0 else (firstIdx p rest).map (· + 1)

/-- `avg_charge`: average state of charge, `0.0` on an empty list. -/
def avg_charge (bats : List Battery) : ℚ :=
  if bats.isEmpty then 0 else (bats.map (·.charge)).sum / bats.length

/-- `all_above`: all batteries have `charge >= level`. -/
def all_above (bats : List Battery) (level : ℚ) : Bool :=
  bats.all (fun b => level ≤ b.charge)

/-- `all_below`: all batteries have `charge <= level`. -/
def all_below (bats : List Battery) (level : ℚ) : Bool :=
  bats.all (fun b => b.charge ≤ level)

/-- `remaining_capacity`: `max(0, 2500 - abs(effectivePower))`. -/
def remaining_capacity (bat : Battery) : ℚ :=
  max 0 (2500 - |bat.effectivePower|)

/-- `weighted_charge` (nested in `get_auto_candidate`):
`charge * efficiency * (1 + (0.1 if internalResistance == 0 else 1/(1+internalResistance)))`. -/
def weighted_charge (bat : Battery) : ℚ :=
  bat.charge * bat.efficiency *
    (1 + (if bat.internalResistance = 0 then (1 : ℚ)/10 else 1 / (1 + bat.internalResistance)))

/-- Python `max(l, key=key)` on index lists: first index with maximal key;
`ValueError` on an empty sequence. -/
def pyMaxBy (key : Nat → ℚ) : List Nat → Except PyErr Nat
  | [] => .error .valueError
  | i :: rest => .ok (rest.foldl (fun best j => if key best < key j then j else best) i)

/-- Python `min(l, key=key)` on index lists: first index with minimal key;
`ValueError` on an empty sequence. -/
def pyMinBy (key : Nat → ℚ) : List Nat → Except PyErr Nat
  | [] => .error .valueError
  | i :: rest => .ok (rest.foldl (fun best j => if key j < key best then j else best) i)

/-- Charge of the `i`-th battery (indices produced by the core are in range). -/
def chargeAt (bats : List Battery) (i : Nat) : ℚ :=
  (bats.getD i default).charge

/-- `get_auto_candidate`: ideal automatic battery for the given imbalance.
Discharge direction (`effective_p1 > 100`): highest weighted charge among
batteries with SoC > 20 (falling back to all); charge direction
(`effective_p1 < -100`): lowest weighted charge among batteries with SoC < 95
(falling back to all); neutral: the `len // 2`-th index of the stable
ascending-SoC ordering. -/
def get_auto_candidate (batteries : List Battery) (effectiveP1 : ℚ) : Except PyErr Nat :=
  let n := batteries.length
  let validIdxs := List.range n
  let wc : Nat → ℚ := fun i => weighted_charge (batteries.getD i default)
  if 100 < effectiveP1 then
    let cands := validIdxs.filter (fun i => decide (20 < chargeAt batteries i))
    pyMaxBy wc (if cands.isEmpty then validIdxs else cands)
  else if effectiveP1 < -100 then
    let cands := validIdxs.filter (fun i => decide (chargeAt batteries i < 95))
    pyMinBy wc (if cands.isEmpty then validIdxs else cands)
  else
    match (List.insertionSort (fun a b => chargeAt batteries a ≤ chargeAt batteries b) validIdxs)[n / 2]? with
    | some i => .ok i
    | none => .error .indexError

/-- `select_auto_battery`: hysteresis over the previous automatic battery and
the scored candidate.  The Python signature defaults `soc_threshold` to `5`;
callers pass it explicitly here. -/
def select_auto_battery (batteries : List Battery) (effectiveP1 : ℚ)
    (socThreshold : ℚ) : Except PyErr Nat :=
  let currentAutoIdx := firstIdx (·.isAutomatic) batteries
  match get_auto_candidate batteries effectiveP1 with
  | .error e => .error e
  | .ok candidateIdx =>
    match currentAutoIdx with
    | none => .ok candidateIdx
    | some cur =>
      let oldAuto := batteries.getD cur default
      let newAuto := batteries.getD candidateIdx default
      let diff := |newAuto.charge - oldAuto.charge|
      if diff < socThreshold ∧ 20 < oldAuto.charge ∧ oldAuto.charge < 95 then .ok cur
      else if oldAuto.charge ≤ 20 ∨ 95 ≤ oldAuto.charge then .ok candidateIdx
      else if |effectiveP1| < 1500 then .ok cur
      else .ok candidateIdx

/-- `compute_car_intent`: car charging/discharging intent. -/
def compute_car_intent (carState : CarState) (p1Usage : ℚ) (lowHours : Bool)
    (batteries : List Battery) : ℤ :=
  if !carState.isCarConnected then 0
  else if p1Usage < 0 then
    let power := pyRound (|p1Usage| * (85/100))
    if all_above batteries 90 then pyRound |p1Usage| else power
  else
    if lowHours && all_above batteries 90 then 1400
    else if lowHours && !all_below batteries 20 then 1400
    else 0

/-- `can_auto_handle`: whether the previous or new automatic battery alone can
absorb the imbalance (`abs(effective_p1) <= 1500 + max_cap / 2`).  The new
automatic battery is always a populated dictionary at the call sites, so its
capacity is always included. -/
def can_auto_handle (effectiveP1 : ℚ) (oldAuto : Option Battery) (newAuto : Battery) : Bool :=
  let maxCap :=
    match oldAuto with
    | some o => max (remaining_capacity o) (remaining_capacity newAuto)
    | none => remaining_capacity newAuto
  decide (|effectiveP1| ≤ 1500 + maxCap / 2)

/-- Force a battery to idle: `isManual=False, manualSetPower=0, isAutomatic=False`. -/
def idle_battery (b : Battery) : Battery :=
  { b with isManual := false, manualSetPower := 0, isAutomatic := false }

/-- The helper setpoint assigned in the allocation loop, including the
SoC-spread bias and the final clamp to `[-2500, 2500]`. -/
def helper_power (needPower scale diff avg : ℚ) (b : Battery) : ℤ :=
  let raw : ℤ :=
    if 10 < diff then
      pyRound (needPower * (1/2 + 1/2 * (|b.charge - avg| / max 1 diff)) * scale)
    else
      pyRound (needPower * scale)
  max (-2500) (min 2500 raw)

/-- A battery placed in manual helper mode by the allocation loop. -/
def helper_battery (needPower scale diff avg : ℚ) (b : Battery) : Battery :=
  { b with isManual := true, isAutomatic := false,
           manualSetPower := helper_power needPower scale diff avg b }

/-- The body of the allocation loop for one battery: skip unsafe batteries
(idle them), otherwise assign the manual helper setpoint. -/
def loop_update (direction : ℤ) (needPower scale diff avg : ℚ) (b : Battery) : Battery :=
  if (direction < 0 ∧ b.charge ≤ 20) ∨ (direction > 0 ∧ 100 ≤ b.charge) then
    idle_battery b
  else
    helper_battery needPower scale diff avg b

/-- One iteration of the allocation loop (`for i in order: ...`); the
automatic battery is skipped, every other index is overwritten in place.
`avg_charge` is recomputed from the current list, as in the source. -/
def assign_step (autoIdx : Nat) (direction : ℤ) (needPower scale diff : ℚ)
    (bats : List Battery) (i : Nat) : List Battery :=
  if i = autoIdx then bats
  else bats.set i (loop_update direction needPower scale diff (avg_charge bats) (bats.getD i default))

/-- `for i, b in enumerate(bat_out)` with per-index updates, starting at `k`. -/
def mapWithIdxFrom (f : Nat → Battery → Battery) (k : Nat) : List Battery → List Battery
  | [] => []
  | b :: rest => f k b :: mapWithIdxFrom f (k + 1) rest

/-- The small-power cutoff after the allocation loop: any battery left in
manual mode with `abs(manualSetPower) < 300` is reverted to idle. -/
def cutoff_battery (b : Battery) : Battery :=
  if b.isManual ∧ |b.manualSetPower| < 300 then
    { b with isManual := false, manualSetPower := 0 }
  else b

/-- `assign_manual_powers`: if the automatic battery (or the previous one) can
handle the imbalance, idle every other battery; otherwise run the allocation
loop over the SoC-ordered indices and then apply the `< 300 W` cutoff. -/
def assign_manual_powers (batOut : List Battery) (autoIdx : Nat) (effectiveP1 : ℚ)
    (oldAutoIdx : Option Nat) : List Battery :=
  let direction : ℤ := if 0 < effectiveP1 then -1 else 1
  let needPower : ℚ := min 2500 |effectiveP1| * (direction : ℚ)
  let autoBat := batOut.getD autoIdx default
  let oldAuto := oldAutoIdx.map (fun i => batOut.getD i default)
  if can_auto_handle effectiveP1 oldAuto autoBat then
    mapWithIdxFrom (fun i b => if i = autoIdx then b else idle_battery b) 0 batOut
  else
    let high := listMaxQ (batOut.map (·.charge))
    let low := listMinQ (batOut.map (·.charge))
    let diff := high - low
    let overload := |effectiveP1| - 1500
    let scale := min 1 (overload / 1000)
    let order :=
      if 0 < direction then
        List.insertionSort (fun a b => chargeAt batOut a ≤ chargeAt batOut b) (List.range batOut.length)
      else
        List.insertionSort (fun a b => chargeAt batOut b ≤ chargeAt batOut a) (List.range batOut.length)
    let assigned := order.foldl (assign_step autoIdx direction needPower scale diff) batOut
    assigned.map cutoff_battery

/-- `enforce_boundaries` applied to one battery (the two clamping rules in
source order). -/
def enforce_battery (b : Battery) : Battery :=
  let b1 := if 100 ≤ b.charge ∧ 0 < b.manualSetPower then
    { b with manualSetPower := 0, isManual := false } else b
  if b1.charge ≤ 20 ∧ b1.manualSetPower < 0 then
    { b1 with manualSetPower := 0, isManual := false } else b1

/-- `enforce_boundaries`: final SoC safety pass over every battery. -/
def enforce_boundaries (bats : List Battery) : List Battery :=
  bats.map enforce_battery

/-- The defensive per-battery copy built at the top of `control_energy_flow`
(for well-formed snapshots every key is present, so each `get` default is
unused and the copy reproduces the input values). -/
def copy_battery (b : Battery) : Battery :=
  { charge := b.charge, isManual := b.isManual, manualSetPower := b.manualSetPower,
    isAutomatic := b.isAutomatic, ip := b.ip, effectivePower := b.effectivePower,
    efficiency := b.efficiency, internalResistance := b.internalResistance }

/-- Time context: peak is a weekday (Mon-Fri) with hour in `[7, 22)`;
`low_hours` is its negation. -/
def low_hours_of (now : PyTime) : Bool :=
  !(decide (now.weekday < 5) && (decide (7 ≤ now.hour) && decide (now.hour < 22)))

/-- `control_energy_flow`: the orchestrating entry point. -/
def control_energy_flow (batteries : List Battery) (carState : CarState)
    (p1Usage : ℚ) (now : PyTime) : Except PyErr ControlResult :=
  let lowHours := low_hours_of now
  let batOut := batteries.map copy_battery
  let carIntended := compute_car_intent carState p1Usage lowHours batOut
  let totalBatFlow := (batOut.map (·.effectivePower)).sum
  let effectiveP1 := p1Usage + (carIntended : ℚ) + totalBatFlow
  let oldAutoIdx := firstIdx (·.isAutomatic) batteries
  match select_auto_battery batOut effectiveP1 5 with
  | .error e => .error e
  | .ok autoIdx =>
    let autoBat := batOut.getD autoIdx default
    let batOut2 := batOut.set autoIdx
      { autoBat with isAutomatic := true, isManual := false, manualSetPower := 0 }
    let batOut3 := assign_manual_powers batOut2 autoIdx effectiveP1 oldAutoIdx
    let batOut4 := enforce_boundaries batOut3
    .ok { batteries := batOut4, carIntendedPowerUsage := carIntended,
          effectiveP1 := effectiveP1, oldAutoIdx := oldAutoIdx,
          newAutoIdx := autoIdx, lowHours := lowHours }

/-! ### Generic list infrastructure -/

theorem list_set_self {α : Type} (l : List α) (i : Nat) (h : i < l.length) :
    l.set i l[i] = l := by
  induction l generalizing i with
  | nil => simp at h
  | cons a rest ih =>
    cases i with
    | zero => simp
    | succ j =>
      simp only [List.set]
      have := ih j (by simpa using h)
      simp_all

theorem firstIdx_eq_none_iff (p : Battery → Bool) (l : List Battery) :
    firstIdx p l = none ↔ ∀ b ∈ l, p b = false := by
  induction l with
  | nil => simp [firstIdx]
  | cons a rest ih =>
    cases hp : p a with
    | true =>
      simp only [firstIdx, hp, if_pos]
      constructor
      · intro hcontra
        exact absurd hcontra (by simp)
      · intro hall
        have := hall a (List.mem_cons_self a rest)
        rw [hp] at this
        exact absurd this (by simp)
    | false =>
      simp only [firstIdx, hp]
      constructor
      · intro hn b hb
        rcases List.mem_cons.mp hb with rfl | hb2
        · exact hp
        · refine (ih.mp ?_) b hb2
          cases hrec : firstIdx p rest with
          | none => rfl
          | some j => rw [hrec] at hn; simp at hn
      · intro hall
        have hnone : firstIdx p rest = none :=
          ih.mpr (fun b hb => hall b (List.mem_cons.mpr (Or.inr hb)))
        rw [hnone]
        simp

theorem firstIdx_some_lt {p : Battery → Bool} {l : List Battery} {i : Nat}
    (h : firstIdx p l = some i) : i < l.length := by
  induction l generalizing i with
  | nil => simp [firstIdx] at h
  | cons a rest ih =>
    cases hp : p a with
    | true =>
      rw [firstIdx, hp] at h
      simp only [if_pos, Option.some.injEq] at h
      simp only [List.length_cons]
      omega
    | false =>
      rw [firstIdx, hp] at h
      simp only [Bool.false_eq_true, if_false] at h
      cases hrec : firstIdx p rest with
      | none => rw [hrec] at h; simp at h
      | some j =>
        rw [hrec] at h
        simp at h
        have := ih hrec
        simp only [List.length_cons]
        omega

theorem foldl_pick_mem (f : Nat → Nat → Nat) (hf : ∀ b j, f b j = b ∨ f b j = j)
    (rest : List Nat) (b : Nat) : rest.foldl f b ∈ b :: rest := by
  induction rest generalizing b with
  | nil => simp
  | cons j rest ih =>
    simp only [List.foldl_cons]
    have h1 := ih (f b j)
    rcases hf b j with h | h
    · rw [h] at h1 ⊢
      rcases List.mem_cons.mp h1 with h2 | h2
      · exact List.mem_cons.mpr (Or.inl h2)
      · exact List.mem_cons.mpr (Or.inr (List.mem_cons.mpr (Or.inr h2)))
    · rw [h] at h1 ⊢
      rcases List.mem_cons.mp h1 with h2 | h2
      · exact List.mem_cons.mpr (Or.inr (List.mem_cons.mpr (Or.inl h2)))
      · exact List.mem_cons.mpr (Or.inr (List.mem_cons.mpr (Or.inr h2)))

theorem pyMaxBy_ne_nil (key : Nat → ℚ) (l : List Nat) (h : l ≠ []) :
    ∃ i ∈ l, pyMaxBy key l = .ok i := by
  cases l with
  | nil => simp at h
  | cons a rest =>
    refine ⟨rest.foldl (fun best j => if key best < key j then j else best) a, ?_, rfl⟩
    refine foldl_pick_mem _ (fun b j => ?_) rest a
    by_cases hc : key b < key j
    · right; simp [hc]
    · left; simp [hc]

theorem pyMinBy_ne_nil (key : Nat → ℚ) (l : List Nat) (h : l ≠ []) :
    ∃ i ∈ l, pyMinBy key l = .ok i := by
  cases l with
  | nil => simp at h
  | cons a rest =>
    refine ⟨rest.foldl (fun best j => if key j < key best then j else best) a, ?_, rfl⟩
    refine foldl_pick_mem _ (fun b j => ?_) rest a
    by_cases hc : key j < key b
    · right; simp [hc]
    · left; simp [hc]

theorem mapWithIdxFrom_length (f : Nat → Battery → Battery) (k : Nat) (l : List Battery) :
    (mapWithIdxFrom f k l).length = l.length := by
  induction l generalizing k with
  | nil => rfl
  | cons b rest ih => simp [mapWithIdxFrom, ih]

theorem mapWithIdxFrom_getElem? (f : Nat → Battery → Battery) (k : Nat) (l : List Battery)
    (j : Nat) : (mapWithIdxFrom f k l)[j]? = (l[j]?).map (f (k + j)) := by
  induction l generalizing k j with
  | nil => simp [mapWithIdxFrom]
  | cons b rest ih =>
    cases j with
    | zero => simp [mapWithIdxFrom]
    | succ j' =>
      simp only [mapWithIdxFrom, List.getElem?_cons_succ]
      rw [ih (k + 1) j']
      have harith : k + 1 + j' = k + (j' + 1) := by omega
      rw [harith]

/-! ### Range and totality of the selection stages -/

theorem pyMaxBy_ok_mem {key : Nat → ℚ} {l : List Nat} {i : Nat}
    (h : pyMaxBy key l = .ok i) : i ∈ l := by
  cases l with
  | nil => simp [pyMaxBy] at h
  | cons a rest =>
    simp only [pyMaxBy, Except.ok.injEq] at h
    rw [← h]
    refine foldl_pick_mem _ (fun b j => ?_) rest a
    by_cases hc : key b < key j
    · right; simp [hc]
    · left; simp [hc]

theorem pyMinBy_ok_mem {key : Nat → ℚ} {l : List Nat} {i : Nat}
    (h : pyMinBy key l = .ok i) : i ∈ l := by
  cases l with
  | nil => simp [pyMinBy] at h
  | cons a rest =>
    simp only [pyMinBy, Except.ok.injEq] at h
    rw [← h]
    refine foldl_pick_mem _ (fun b j => ?_) rest a
    by_cases hc : key j < key b
    · right; simp [hc]
    · left; simp [hc]

theorem get_auto_candidate_ok_lt {bats : List Battery} {ep1 : ℚ} {i : Nat}
    (h : get_auto_candidate bats ep1 = .ok i) : i < bats.length := by
  classical
  simp only [get_auto_candidate] at h
  split at h
  · have hmem := pyMaxBy_ok_mem h
    have : i ∈ List.range bats.length := by
      by_cases hc : (List.filter (fun i => decide (20 < chargeAt bats i)) (List.range bats.length)).isEmpty
      · simpa [hc] using hmem
      · simp only [hc, if_false] at hmem
        exact List.mem_of_mem_filter hmem
    simpa using this
  · split at h
    · have hmem := pyMinBy_ok_mem h
      have : i ∈ List.range bats.length := by
        by_cases hc : (List.filter (fun i => decide (chargeAt bats i < 95)) (List.range bats.length)).isEmpty
        · simpa [hc] using hmem
        · simp only [hc, if_false] at hmem
          exact List.mem_of_mem_filter hmem
      simpa using this
    · split at h
      · rename_i j hj
        cases h with
        | refl =>
          have hmem : i ∈ List.insertionSort
              (fun a b => chargeAt bats a ≤ chargeAt bats b) (List.range bats.length) := by
            exact List.getElem?_mem hj
          have : i ∈ List.range bats.length :=
            (List.perm_insertionSort _ _).subset hmem
          simpa using this
      · exact absurd h (by simp)

theorem get_auto_candidate_total (bats : List Battery) (ep1 : ℚ) (hne : bats ≠ []) :
    ∃ i, get_auto_candidate bats ep1 = .ok i := by
  classical
  have hlen : 0 < bats.length := List.length_pos.mpr hne
  simp only [get_auto_candidate]
  split
  · have hne2 : (if (List.filter (fun i => decide (20 < chargeAt bats i))
        (List.range bats.length)).isEmpty then List.range bats.length
        else List.filter (fun i => decide (20 < chargeAt bats i))
          (List.range bats.length)) ≠ [] := by
      split
      · simpa [List.length_pos] using hlen
      · rename_i hc
        simpa [List.isEmpty_iff] using hc
    obtain ⟨i, _, hi⟩ := pyMaxBy_ne_nil _ _ hne2
    exact ⟨i, hi⟩
  · split
    · have hne2 : (if (List.filter (fun i => decide (chargeAt bats i < 95))
          (List.range bats.length)).isEmpty then List.range bats.length
          else List.filter (fun i => decide (chargeAt bats i < 95))
            (List.range bats.length)) ≠ [] := by
        split
        · simpa [List.length_pos] using hlen
        · rename_i hc
          simpa [List.isEmpty_iff] using hc
      obtain ⟨i, _, hi⟩ := pyMinBy_ne_nil _ _ hne2
      exact ⟨i, hi⟩
    · have hsortlen : (List.insertionSort
          (fun a b => chargeAt bats a ≤ chargeAt bats b) (List.range bats.length)).length
          = bats.length := by
        rw [(List.perm_insertionSort _ _).length_eq, List.length_range]
      have hidx : bats.length / 2 < (List.insertionSort
          (fun a b => chargeAt bats a ≤ chargeAt bats b) (List.range bats.length)).length := by
        rw [hsortlen]
        exact Nat.div_lt_self hlen (by omega)
      rw [List.getElem?_eq_getElem hidx]
      exact ⟨_, rfl⟩

theorem select_auto_battery_ok_lt {bats : List Battery} {ep1 thr : ℚ} {i : Nat}
    (h : select_auto_battery bats ep1 thr = .ok i) : i < bats.length := by
  unfold select_auto_battery at h
  cases hc : get_auto_candidate bats ep1 with
  | error e => rw [hc] at h; simp at h
  | ok cand =>
    rw [hc] at h
    have hcand := get_auto_candidate_ok_lt hc
    cases hcur : firstIdx (·.isAutomatic) bats with
    | none =>
      rw [hcur] at h
      simp only [Except.ok.injEq] at h
      omega
    | some cur =>
      rw [hcur] at h
      have hcurlt := firstIdx_some_lt hcur
      simp only at h
      split at h <;> [skip; split at h] <;> [skip; skip; split at h] <;>
        simp only [Except.ok.injEq] at h <;> omega

theorem select_auto_battery_total (bats : List Battery) (ep1 thr : ℚ) (hne : bats ≠ []) :
    ∃ i, select_auto_battery bats ep1 thr = .ok i := by
  obtain ⟨cand, hcand⟩ := get_auto_candidate_total bats ep1 hne
  unfold select_auto_battery
  rw [hcand]
  cases hcur : firstIdx (·.isAutomatic) bats with
  | none => exact ⟨cand, rfl⟩
  | some cur =>
    simp only
    split
    · exact ⟨cur, rfl⟩
    · split
      · exact ⟨cand, rfl⟩
      · split
        · exact ⟨cur, rfl⟩
        · exact ⟨cand, rfl⟩

/-! ### Pipeline unfolding -/

theorem copy_battery_eq (b : Battery) : copy_battery b = b := rfl

theorem map_copy_battery (l : List Battery) : l.map copy_battery = l := by
  have h : copy_battery = fun b => b := funext (fun b => rfl)
  rw [h]
  exact List.map_id' l

/-- `control_energy_flow` with the defensive copy simplified away (the copy is
the identity on well-formed snapshots). -/
theorem control_energy_flow_eq (bats : List Battery) (car : CarState) (p1 : ℚ) (t : PyTime) :
    control_energy_flow bats car p1 t =
      (match select_auto_battery bats
          (p1 + (compute_car_intent car p1 (low_hours_of t) bats : ℚ)
            + (bats.map (·.effectivePower)).sum) 5 with
       | .error e => .error e
       | .ok autoIdx =>
         .ok { batteries := enforce_boundaries (assign_manual_powers
                 (bats.set autoIdx { bats.getD autoIdx default with
                   isAutomatic := true, isManual := false, manualSetPower := 0 })
                 autoIdx
                 (p1 + (compute_car_intent car p1 (low_hours_of t) bats : ℚ)
                   + (bats.map (·.effectivePower)).sum)
                 (firstIdx (·.isAutomatic) bats)),
               carIntendedPowerUsage := compute_car_intent car p1 (low_hours_of t) bats,
               effectiveP1 := p1 + (compute_car_intent car p1 (low_hours_of t) bats : ℚ)
                 + (bats.map (·.effectivePower)).sum,
               oldAutoIdx := firstIdx (·.isAutomatic) bats,
               newAutoIdx := autoIdx,
               lowHours := low_hours_of t }) := by
  simp only [control_energy_flow, map_copy_battery]

theorem control_energy_flow_total (bats : List Battery) (car : CarState) (p1 : ℚ)
    (t : PyTime) (hne : bats ≠ []) :
    ∃ res, control_energy_flow bats car p1 t = .ok res := by
  rw [control_energy_flow_eq]
  obtain ⟨i, hi⟩ := select_auto_battery_total bats
    (p1 + (compute_car_intent car p1 (low_hours_of t) bats : ℚ)
      + (bats.map (·.effectivePower)).sum) 5 hne
  rw [hi]
  exact ⟨_, rfl⟩

/-! ### Characterization of the allocation stage -/

theorem loop_update_charge (d : ℤ) (np sc df avg : ℚ) (b : Battery) :
    (loop_update d np sc df avg b).charge = b.charge := by
  unfold loop_update idle_battery helper_battery
  split <;> rfl

theorem loop_update_frame (d : ℤ) (np sc df avg : ℚ) (b : Battery) :
    (loop_update d np sc df avg b).charge = b.charge ∧
    (loop_update d np sc df avg b).ip = b.ip ∧
    (loop_update d np sc df avg b).effectivePower = b.effectivePower ∧
    (loop_update d np sc df avg b).efficiency = b.efficiency ∧
    (loop_update d np sc df avg b).internalResistance = b.internalResistance := by
  unfold loop_update idle_battery helper_battery
  split <;> exact ⟨rfl, rfl, rfl, rfl, rfl⟩

theorem loop_update_idem (d : ℤ) (np sc df avg : ℚ) (b : Battery) :
    loop_update d np sc df avg (loop_update d np sc df avg b) =
      loop_update d np sc df avg b := by
  unfold loop_update
  split
  · rename_i h
    rw [if_pos (by simpa [idle_battery] using h)]
    rfl
  · rename_i h
    rw [if_neg (by simpa [helper_battery] using h)]
    simp only [helper_battery, helper_power]

theorem avg_charge_congr {bats bats' : List Battery}
    (h : bats.map (·.charge) = bats'.map (·.charge)) :
    avg_charge bats = avg_charge bats' := by
  have hlen : bats.length = bats'.length := by
    have := congrArg List.length h
    simpa using this
  have hempty : bats.isEmpty = bats'.isEmpty := by
    cases bats <;> cases bats' <;> simp_all
  unfold avg_charge
  rw [h, hlen, hempty]

theorem assign_step_map_charge (a : Nat) (d : ℤ) (np sc df : ℚ)
    (bats : List Battery) (i : Nat) :
    (assign_step a d np sc df bats i).map (·.charge) = bats.map (·.charge) := by
  unfold assign_step
  split
  · rfl
  · rw [List.map_set]
    by_cases hlen : i < bats.length
    · have hgd : bats.getD i default = bats[i] := by
        rw [List.getD_eq_getElem?_getD, List.getElem?_eq_getElem hlen]
        rfl
      rw [hgd, loop_update_charge]
      have hlenm : i < (bats.map (·.charge)).length := by simpa using hlen
      have : bats[i].charge = (bats.map (·.charge))[i] := by
        rw [List.getElem_map]
      rw [this, list_set_self]
    · rw [List.set_eq_of_length_le (by simpa using (Nat.le_of_not_lt hlen))]

theorem assign_step_avg (a : Nat) (d : ℤ) (np sc df : ℚ)
    (bats : List Battery) (i : Nat) :
    avg_charge (assign_step a d np sc df bats i) = avg_charge bats :=
  avg_charge_congr (assign_step_map_charge a d np sc df bats i)

theorem assign_step_getElem? (a : Nat) (d : ℤ) (np sc df : ℚ)
    (bats : List Battery) (i j : Nat) :
    (assign_step a d np sc df bats i)[j]? =
      if j = i ∧ i ≠ a then (bats[j]?).map (loop_update d np sc df (avg_charge bats))
      else bats[j]? := by
  unfold assign_step
  by_cases hia : i = a
  · simp [hia]
  · rw [if_neg hia]
    by_cases hji : j = i
    · subst hji
      rw [if_pos ⟨rfl, hia⟩]
      by_cases hlen : j < bats.length
      · have hgd : bats.getD j default = bats[j] := by
          rw [List.getD_eq_getElem?_getD, List.getElem?_eq_getElem hlen]
          rfl
        rw [hgd, List.getElem?_set_self (by simpa using hlen),
          List.getElem?_eq_getElem hlen]
        rfl
      · have h1 : bats[j]? = none := List.getElem?_eq_none_iff.mpr (Nat.le_of_not_lt hlen)
        rw [List.set_eq_of_length_le (Nat.le_of_not_lt hlen), h1]
        rfl
    · rw [if_neg (by tauto), List.getElem?_set_ne (by omega)]

theorem assign_fold_map_charge (a : Nat) (d : ℤ) (np sc df : ℚ)
    (order : List Nat) (bats : List Battery) :
    (order.foldl (assign_step a d np sc df) bats).map (·.charge) = bats.map (·.charge) := by
  induction order generalizing bats with
  | nil => rfl
  | cons i rest ih =>
    rw [List.foldl_cons, ih, assign_step_map_charge]

theorem assign_fold_getElem? (a : Nat) (d : ℤ) (np sc df : ℚ)
    (order : List Nat) (bats : List Battery) (j : Nat) :
    (order.foldl (assign_step a d np sc df) bats)[j]? =
      if j ∈ order ∧ j ≠ a then
        (bats[j]?).map (loop_update d np sc df (avg_charge bats))
      else bats[j]? := by
  induction order generalizing bats with
  | nil => simp
  | cons i rest ih =>
    rw [List.foldl_cons, ih (assign_step a d np sc df bats i),
      assign_step_avg, assign_step_getElem?]
    by_cases hja : j = a
    · rw [if_neg (by simp [hja]), if_neg (by omega), if_neg (by simp [hja])]
    · by_cases hji : j = i
      · subst hji
        by_cases hjr : j ∈ rest
        · rw [if_pos ⟨hjr, hja⟩, if_pos ⟨rfl, by omega⟩, if_pos ⟨by simp, hja⟩,
            Option.map_map]
          congr 1
          funext b
          exact loop_update_idem d np sc df (avg_charge bats) b
        · rw [if_neg (by tauto), if_pos ⟨rfl, by omega⟩, if_pos ⟨by simp, hja⟩]
      · by_cases hjr : j ∈ rest
        · rw [if_pos ⟨hjr, hja⟩, if_neg (by tauto), if_pos ⟨by simp [hjr], hja⟩]
        · rw [if_neg (by tauto), if_neg (by tauto), if_neg (by simp [hji, hjr])]

theorem getD_lt {bats : List Battery} {i : Nat} (h : i < bats.length) :
    bats.getD i default = bats[i] := by
  rw [List.getD_eq_getElem?_getD, List.getElem?_eq_getElem h]
  rfl

theorem sort_mem_iff (r : Nat → Nat → Prop) [DecidableRel r] (n x : Nat) :
    x ∈ List.insertionSort r (List.range n) ↔ x < n := by
  rw [(List.perm_insertionSort r _).mem_iff, List.mem_range]

/-- Pointwise description of `assign_manual_powers`: position `autoIdx` only
passes through the cutoff; in the sufficient case every other battery is
idled; in the insufficient case every other battery goes through the
allocation-loop body followed by the cutoff. -/
theorem assign_manual_powers_getElem? (batOut : List Battery) (autoIdx : Nat) (ep1 : ℚ)
    (oldAutoIdx : Option Nat) (j : Nat) :
    (assign_manual_powers batOut autoIdx ep1 oldAutoIdx)[j]? =
      if can_auto_handle ep1 (oldAutoIdx.map (fun i => batOut.getD i default))
          (batOut.getD autoIdx default) then
        (batOut[j]?).map (fun b => if j = autoIdx then b else idle_battery b)
      else if j = autoIdx then (batOut[j]?).map cutoff_battery
      else (batOut[j]?).map (fun b => cutoff_battery
        (loop_update (if 0 < ep1 then -1 else 1)
          (min 2500 |ep1| * (Int.cast (if 0 < ep1 then (-1 : ℤ) else 1) : ℚ))
          (min 1 ((|ep1| - 1500) / 1000))
          (listMaxQ (batOut.map (·.charge)) - listMinQ (batOut.map (·.charge)))
          (avg_charge batOut) b)) := by
  simp only [assign_manual_powers]
  by_cases hch : can_auto_handle ep1 (oldAutoIdx.map (fun i => batOut.getD i default))
      (batOut.getD autoIdx default) = true
  · rw [if_pos hch, if_pos hch, mapWithIdxFrom_getElem?]
    simp only [Nat.zero_add]
  · rw [if_neg hch, if_neg hch, List.getElem?_map, assign_fold_getElem?]
    have horder : ∀ x : Nat,
        (x ∈ (if 0 < (if 0 < ep1 then (-1 : ℤ) else 1) then
          List.insertionSort (fun a b => chargeAt batOut a ≤ chargeAt batOut b)
            (List.range batOut.length)
        else
          List.insertionSort (fun a b => chargeAt batOut b ≤ chargeAt batOut a)
            (List.range batOut.length))) ↔ x < batOut.length := by
      intro x
      split
      · exact sort_mem_iff _ _ x
      · exact sort_mem_iff _ _ x
    by_cases hja : j = autoIdx
    · rw [if_neg (fun hc => hc.2 hja), if_pos hja]
    · rw [if_neg hja]
      by_cases hlen : j < batOut.length
      · rw [if_pos ⟨(horder j).mpr hlen, hja⟩, Option.map_map]
        rfl
      · rw [if_neg (fun hc => hlen ((horder j).mp hc.1))]
        rw [List.getElem?_eq_none_iff.mpr (Nat.le_of_not_lt hlen)]
        rfl

/-! ### Pointwise facts about the small per-battery transformations -/

/-- The flags forced onto the selected automatic battery by the orchestrator. -/
def auto_flagged (b : Battery) : Battery :=
  { b with isAutomatic := true, isManual := false, manualSetPower := 0 }

/-- The net imbalance computed by the orchestrator. -/
def effective_p1_of (bats : List Battery) (car : CarState) (p1 : ℚ) (t : PyTime) : ℚ :=
  p1 + (compute_car_intent car p1 (low_hours_of t) bats : ℚ) + (bats.map (·.effectivePower)).sum

theorem cutoff_battery_isAutomatic (b : Battery) :
    (cutoff_battery b).isAutomatic = b.isAutomatic := by
  unfold cutoff_battery
  split <;> rfl

theorem cutoff_battery_frame (b : Battery) :
    (cutoff_battery b).charge = b.charge ∧ (cutoff_battery b).ip = b.ip ∧
    (cutoff_battery b).effectivePower = b.effectivePower ∧
    (cutoff_battery b).efficiency = b.efficiency ∧
    (cutoff_battery b).internalResistance = b.internalResistance := by
  unfold cutoff_battery
  split <;> exact ⟨rfl, rfl, rfl, rfl, rfl⟩

theorem cutoff_battery_of_not_manual {b : Battery} (h : b.isManual = false) :
    cutoff_battery b = b := by
  simp [cutoff_battery, h]

theorem enforce_battery_isAutomatic (b : Battery) :
    (enforce_battery b).isAutomatic = b.isAutomatic := by
  simp only [enforce_battery]
  split <;> split <;> rfl

theorem enforce_battery_frame (b : Battery) :
    (enforce_battery b).charge = b.charge ∧ (enforce_battery b).ip = b.ip ∧
    (enforce_battery b).effectivePower = b.effectivePower ∧
    (enforce_battery b).efficiency = b.efficiency ∧
    (enforce_battery b).internalResistance = b.internalResistance := by
  simp only [enforce_battery]
  split <;> split <;> exact ⟨rfl, rfl, rfl, rfl, rfl⟩

theorem enforce_battery_of_msp_zero {b : Battery} (h : b.manualSetPower = 0) :
    enforce_battery b = b := by
  simp [enforce_battery, h]

/-- The boundary pass output never discharges a depleted battery nor charges a
full one, regardless of its input. -/
theorem enforce_battery_safe (b : Battery) :
    ((enforce_battery b).charge ≤ 20 → 0 ≤ (enforce_battery b).manualSetPower) ∧
    (100 ≤ (enforce_battery b).charge → (enforce_battery b).manualSetPower ≤ 0) := by
  simp only [enforce_battery]
  split
  · rename_i h1
    split
    · rename_i h2
      exact ⟨fun _ => le_refl 0, fun _ => le_refl 0⟩
    · rename_i h2
      refine ⟨fun hc => ?_, fun _ => le_refl 0⟩
      simp only at hc h2
      exact le_of_not_lt (fun hlt => h2 ⟨hc, hlt⟩)
  · rename_i h1
    split
    · exact ⟨fun _ => le_refl 0, fun _ => le_refl 0⟩
    · rename_i h2
      constructor
      · intro hc
        exact le_of_not_lt (fun hlt => h2 ⟨hc, hlt⟩)
      · intro hc
        exact le_of_not_lt (fun hlt => h1 ⟨hc, hlt⟩)

/-- The manual-setpoint invariants of a battery leaving the boundary pass:
they are preserved from its input. -/
theorem enforce_battery_msp_invariant {b : Battery}
    (h : (-2500 ≤ b.manualSetPower ∧ b.manualSetPower ≤ 2500) ∧
      (b.isAutomatic = true → b.manualSetPower = 0) ∧
      (b.isManual = false → b.manualSetPower = 0)) :
    (-2500 ≤ (enforce_battery b).manualSetPower ∧ (enforce_battery b).manualSetPower ≤ 2500) ∧
    ((enforce_battery b).isAutomatic = true → (enforce_battery b).manualSetPower = 0) ∧
    ((enforce_battery b).isManual = false → (enforce_battery b).manualSetPower = 0) := by
  simp only [enforce_battery]
  split
  · split
    · exact ⟨⟨by norm_num, by norm_num⟩, fun _ => rfl, fun _ => rfl⟩
    · exact ⟨⟨by norm_num, by norm_num⟩, fun _ => rfl, fun _ => rfl⟩
  · split
    · exact ⟨⟨by norm_num, by norm_num⟩, fun _ => rfl, fun _ => rfl⟩
    · exact h

theorem loop_update_isAutomatic (d : ℤ) (np sc df avg : ℚ) (b : Battery) :
    (loop_update d np sc df avg b).isAutomatic = false := by
  unfold loop_update idle_battery helper_battery
  split <;> rfl

/-- Any battery leaving allocation-loop body followed by the cutoff is
non-automatic, has a clamped setpoint, and is zeroed unless left manual. -/
theorem cutoff_loop_invariant (d : ℤ) (np sc df avg : ℚ) (b : Battery) :
    (-2500 ≤ (cutoff_battery (loop_update d np sc df avg b)).manualSetPower ∧
      (cutoff_battery (loop_update d np sc df avg b)).manualSetPower ≤ 2500) ∧
    ((cutoff_battery (loop_update d np sc df avg b)).isAutomatic = true →
      (cutoff_battery (loop_update d np sc df avg b)).manualSetPower = 0) ∧
    ((cutoff_battery (loop_update d np sc df avg b)).isManual = false →
      (cutoff_battery (loop_update d np sc df avg b)).manualSetPower = 0) := by
  have hauto : (cutoff_battery (loop_update d np sc df avg b)).isAutomatic = false := by
    rw [cutoff_battery_isAutomatic, loop_update_isAutomatic]
  refine ⟨?_, fun hc => by rw [hauto] at hc; exact absurd hc (by simp), ?_⟩
  · unfold loop_update
    split
    · simp [cutoff_battery, idle_battery]
    · unfold cutoff_battery
      split
      · exact ⟨by norm_num, by norm_num⟩
      · simp only [helper_battery, helper_power]
        constructor
        · exact le_max_left _ _
        · exact max_le (by norm_num) (min_le_left _ _)
  · unfold loop_update
    split
    · simp [cutoff_battery, idle_battery]
    · unfold cutoff_battery
      split
      · intro _
        rfl
      · unfold helper_battery
        intro hc
        exact absurd hc (by simp)

/-! ### Destructuring an `ok` run of the orchestrator -/

theorem cef_ok_elim {bats : List Battery} {car : CarState} {p1 : ℚ} {t : PyTime}
    {res : ControlResult} (h : control_energy_flow bats car p1 t = .ok res) :
    ∃ autoIdx, autoIdx < bats.length ∧
      select_auto_battery bats (effective_p1_of bats car p1 t) 5 = .ok autoIdx ∧
      res = { batteries := enforce_boundaries (assign_manual_powers
                (bats.set autoIdx (auto_flagged (bats.getD autoIdx default)))
                autoIdx (effective_p1_of bats car p1 t) (firstIdx (·.isAutomatic) bats)),
              carIntendedPowerUsage := compute_car_intent car p1 (low_hours_of t) bats,
              effectiveP1 := effective_p1_of bats car p1 t,
              oldAutoIdx := firstIdx (·.isAutomatic) bats,
              newAutoIdx := autoIdx,
              lowHours := low_hours_of t } := by
  rw [control_energy_flow_eq] at h
  cases hsel : select_auto_battery bats (effective_p1_of bats car p1 t) 5 with
  | error e =>
    rw [show (p1 + (compute_car_intent car p1 (low_hours_of t) bats : ℚ)
      + (bats.map (·.effectivePower)).sum) = effective_p1_of bats car p1 t from rfl,
      hsel] at h
    simp at h
  | ok autoIdx =>
    rw [show (p1 + (compute_car_intent car p1 (low_hours_of t) bats : ℚ)
      + (bats.map (·.effectivePower)).sum) = effective_p1_of bats car p1 t from rfl,
      hsel] at h
    simp only [Except.ok.injEq] at h
    exact ⟨autoIdx, select_auto_battery_ok_lt hsel, rfl, h.symm⟩

theorem idle_battery_props (b : Battery) :
    (idle_battery b).isAutomatic = false ∧ (idle_battery b).isManual = false ∧
    (idle_battery b).manualSetPower = 0 ∧
    (idle_battery b).charge = b.charge ∧ (idle_battery b).ip = b.ip ∧
    (idle_battery b).effectivePower = b.effectivePower ∧
    (idle_battery b).efficiency = b.efficiency ∧
    (idle_battery b).internalResistance = b.internalResistance :=
  ⟨rfl, rfl, rfl, rfl, rfl, rfl, rfl, rfl⟩

theorem idle_msp_invariant (b : Battery) :
    (-2500 ≤ (idle_battery b).manualSetPower ∧ (idle_battery b).manualSetPower ≤ 2500) ∧
    ((idle_battery b).isAutomatic = true → (idle_battery b).manualSetPower = 0) ∧
    ((idle_battery b).isManual = false → (idle_battery b).manualSetPower = 0) := by
  refine ⟨⟨?_, ?_⟩, fun _ => rfl, fun _ => rfl⟩ <;> norm_num [idle_battery]

theorem assign_manual_powers_length (batOut : List Battery) (a : Nat) (e : ℚ)
    (o : Option Nat) :
    (assign_manual_powers batOut a e o).length = batOut.length := by
  simp only [assign_manual_powers]
  split
  · exact mapWithIdxFrom_length _ _ _
  · rw [List.length_map]
    have hmc := congrArg List.length (assign_fold_map_charge a
      (if 0 < e then -1 else 1) (min 2500 |e| * ((if 0 < e then (-1 : ℤ) else 1) : ℚ))
      (min 1 ((|e| - 1500) / 1000))
      (listMaxQ (batOut.map (·.charge)) - listMinQ (batOut.map (·.charge)))
      (if 0 < (if 0 < e then (-1 : ℤ) else 1) then
        List.insertionSort (fun a b => chargeAt batOut a ≤ chargeAt batOut b)
          (List.range batOut.length)
      else
        List.insertionSort (fun a b => chargeAt batOut b ≤ chargeAt batOut a)
          (List.range batOut.length)) batOut)
    simpa using hmc

/-- Full pointwise specification of an `ok` run: some `autoIdx` below the fleet
size is flagged automatic with a zero setpoint, and every other output battery
is non-automatic with a clamped setpoint (zero unless manual) and untouched
telemetry fields. -/
theorem cef_output_spec {bats : List Battery} {car : CarState} {p1 : ℚ} {t : PyTime}
    {res : ControlResult} (h : control_energy_flow bats car p1 t = .ok res) :
    ∃ autoIdx, autoIdx < bats.length ∧
      res.newAutoIdx = autoIdx ∧
      res.batteries.length = bats.length ∧
      res.batteries[autoIdx]? = some (auto_flagged (bats.getD autoIdx default)) ∧
      (∀ j, j < bats.length → j ≠ autoIdx →
        ∃ b, res.batteries[j]? = some b ∧
          b.isAutomatic = false ∧
          (-2500 ≤ b.manualSetPower ∧ b.manualSetPower ≤ 2500) ∧
          (b.isManual = false → b.manualSetPower = 0) ∧
          b.charge = (bats.getD j default).charge ∧
          b.ip = (bats.getD j default).ip ∧
          b.effectivePower = (bats.getD j default).effectivePower ∧
          b.efficiency = (bats.getD j default).efficiency ∧
          b.internalResistance = (bats.getD j default).internalResistance) := by
  obtain ⟨autoIdx, hlt, hsel, hres⟩ := cef_ok_elim h
  have hbat : res.batteries = enforce_boundaries (assign_manual_powers
      (bats.set autoIdx (auto_flagged (bats.getD autoIdx default)))
      autoIdx (effective_p1_of bats car p1 t) (firstIdx (·.isAutomatic) bats)) := by
    rw [hres]
  have hnew : res.newAutoIdx = autoIdx := by rw [hres]
  have hlen2 : (bats.set autoIdx (auto_flagged (bats.getD autoIdx default))).length
      = bats.length := List.length_set ..
  have hlen : res.batteries.length = bats.length := by
    rw [hbat, enforce_boundaries, List.length_map, assign_manual_powers_length, hlen2]
  have hget_auto : (bats.set autoIdx (auto_flagged (bats.getD autoIdx default)))[autoIdx]?
      = some (auto_flagged (bats.getD autoIdx default)) :=
    List.getElem?_set_self (by omega)
  have hget_ne : ∀ j, j ≠ autoIdx →
      (bats.set autoIdx (auto_flagged (bats.getD autoIdx default)))[j]? = bats[j]? :=
    fun j hj => List.getElem?_set_ne (by omega)
  have hman : (auto_flagged (bats.getD autoIdx default)).isManual = false := rfl
  have hmsp0 : (auto_flagged (bats.getD autoIdx default)).manualSetPower = 0 := rfl
  have haf : ∀ x : Battery, enforce_battery (auto_flagged x) = auto_flagged x :=
    fun x => enforce_battery_of_msp_zero rfl
  have hafc : ∀ x : Battery, cutoff_battery (auto_flagged x) = auto_flagged x :=
    fun x => cutoff_battery_of_not_manual rfl
  refine ⟨autoIdx, hlt, hnew, hlen, ?_, ?_⟩
  · rw [hbat, enforce_boundaries, List.getElem?_map, assign_manual_powers_getElem?]
    by_cases hch : (can_auto_handle (effective_p1_of bats car p1 t)
        (Option.map (fun i =>
            (bats.set autoIdx (auto_flagged (bats.getD autoIdx default))).getD i default)
          (firstIdx (·.isAutomatic) bats))
        ((bats.set autoIdx (auto_flagged (bats.getD autoIdx default))).getD autoIdx default)) = true
    · rw [if_pos hch, hget_auto]
      simp [haf]
    · rw [if_neg hch, if_pos rfl, hget_auto]
      simp [haf, hafc]
  · intro j hj hne
    have hjget : bats[j]? = some bats[j] := List.getElem?_eq_getElem hj
    have hgd : bats.getD j default = bats[j] := getD_lt hj
    rw [hbat, enforce_boundaries, List.getElem?_map, assign_manual_powers_getElem?]
    by_cases hch : (can_auto_handle (effective_p1_of bats car p1 t)
        (Option.map (fun i =>
            (bats.set autoIdx (auto_flagged (bats.getD autoIdx default))).getD i default)
          (firstIdx (·.isAutomatic) bats))
        ((bats.set autoIdx (auto_flagged (bats.getD autoIdx default))).getD autoIdx default)) = true
    · rw [if_pos hch, hget_ne j hne, hjget]
      refine ⟨enforce_battery (idle_battery bats[j]), by simp [hne], ?_, ?_, ?_⟩
      · rw [enforce_battery_isAutomatic, (idle_battery_props _).1]
      · exact (enforce_battery_msp_invariant (idle_msp_invariant _)).1
      · obtain ⟨e1, e2, e3, e4, e5⟩ := enforce_battery_frame (idle_battery bats[j])
        refine ⟨(enforce_battery_msp_invariant (idle_msp_invariant _)).2.2, ?_, ?_, ?_, ?_, ?_⟩
        · rw [e1, (idle_battery_props _).2.2.2.1, hgd]
        · rw [e2, (idle_battery_props _).2.2.2.2.1, hgd]
        · rw [e3, (idle_battery_props _).2.2.2.2.2.1, hgd]
        · rw [e4, (idle_battery_props _).2.2.2.2.2.2.1, hgd]
        · rw [e5, (idle_battery_props _).2.2.2.2.2.2.2, hgd]
    · rw [if_neg hch, if_neg hne, hget_ne j hne, hjget]
      refine ⟨_, rfl, ?_, ?_, ?_⟩
      · rw [enforce_battery_isAutomatic, cutoff_battery_isAutomatic, loop_update_isAutomatic]
      · exact (enforce_battery_msp_invariant (cutoff_loop_invariant _ _ _ _ _ bats[j])).1
      · obtain ⟨e1, e2, e3, e4, e5⟩ := enforce_battery_frame
          (cutoff_battery (loop_update _ _ _ _ _ bats[j]))
        obtain ⟨c1, c2, c3, c4, c5⟩ := cutoff_battery_frame (loop_update _ _ _ _ _ bats[j])
        obtain ⟨l1, l2, l3, l4, l5⟩ := loop_update_frame _ _ _ _ _ bats[j]
        refine ⟨(enforce_battery_msp_invariant (cutoff_loop_invariant _ _ _ _ _ bats[j])).2.2,
          ?_, ?_, ?_, ?_, ?_⟩
        · rw [e1, c1, l1, hgd]
        · rw [e2, c2, l2, hgd]
        · rw [e3, c3, l3, hgd]
        · rw [e4, c4, l4, hgd]
        · rw [e5, c5, l5, hgd]

theorem filter_length_eq_one {p : Battery → Bool} {l : List Battery} {k : Nat}
    (hk : k < l.length)
    (h : ∀ j, (hj : j < l.length) → (p l[j] = true ↔ j = k)) :
    (l.filter p).length = 1 := by
  induction l generalizing k with
  | nil => simp at hk
  | cons a rest ih =>
    cases k with
    | zero =>
      have hpa : p a = true := (h 0 (by simp)).mpr rfl
      have hrest : ∀ x ∈ rest, ¬p x = true := by
        intro x hx
        obtain ⟨i, hi, rfl⟩ := List.mem_iff_getElem.mp hx
        have := (h (i + 1) (by simpa using Nat.succ_lt_succ hi))
        simp only [List.getElem_cons_succ] at this
        intro hplt
        exact absurd (this.mp hplt) (by omega)
      rw [List.filter_cons_of_pos hpa, List.length_cons,
        List.filter_eq_nil_iff.mpr hrest]
      rfl
    | succ k2 =>
      have hpa : ¬p a = true := by
        intro hpa
        exact absurd ((h 0 (by simp)).mp hpa) (by omega)
      rw [List.filter_cons_of_neg hpa]
      refine ih (k := k2) (by simpa using hk) (fun j hj => ?_)
      have := h (j + 1) (by simpa using Nat.succ_lt_succ hj)
      simp only [List.getElem_cons_succ] at this
      rw [this]
      omega

/-- C1: for every well-formed non-empty input battery list (whatever the input
`isAutomatic` flags are), `control_energy_flow` succeeds and its output battery
list contains exactly one battery with `isAutomatic = true`, and that battery
has `isManual = false` and `manualSetPower = 0`. -/
theorem claim_C1 (bats : List Battery) (car : CarState) (p1 : ℚ) (t : PyTime)
    (hne : bats ≠ []) :
    (∃ res, control_energy_flow bats car p1 t = .ok res) ∧
    ∀ res, control_energy_flow bats car p1 t = .ok res →
      (res.batteries.filter (fun b => b.isAutomatic)).length = 1 ∧
      ∀ b ∈ res.batteries, b.isAutomatic = true →
        b.isManual = false ∧ b.manualSetPower = 0 := by
  refine ⟨control_energy_flow_total bats car p1 t hne, fun res h => ?_⟩
  obtain ⟨autoIdx, hlt, hnew, hlen, hat, hother⟩ := cef_output_spec h
  have hlt2 : autoIdx < res.batteries.length := by omega
  have hval : res.batteries[autoIdx] = auto_flagged (bats.getD autoIdx default) := by
    rw [List.getElem?_eq_getElem hlt2] at hat
    exact Option.some.inj hat
  have hp : ∀ j, (hj : j < res.batteries.length) →
      (res.batteries[j].isAutomatic = true ↔ j = autoIdx) := by
    intro j hj
    by_cases hje : j = autoIdx
    · subst hje
      rw [hval]
      simp [auto_flagged]
    · obtain ⟨b, hb, hbauto, _⟩ := hother j (by omega) hje
      have hvb : res.batteries[j] = b := by
        rw [List.getElem?_eq_getElem hj] at hb
        exact Option.some.inj hb
      rw [hvb, hbauto]
      simp [hje]
  refine ⟨filter_length_eq_one hlt2 hp, fun b hb hbauto => ?_⟩
  obtain ⟨j, hj, rfl⟩ := List.mem_iff_getElem.mp hb
  have hj2 : j = autoIdx := (hp j hj).mp hbauto
  subst hj2
  rw [hval]
  exact ⟨rfl, rfl⟩

/-- C2: for every well-formed non-empty input, `control_energy_flow` succeeds
and in its output no battery with `charge ≤ 20` carries `manualSetPower < 0`
and no battery with `charge ≥ 100` carries `manualSetPower > 0`; this holds
regardless of all upstream decisions, since the boundary pass is the final
transformation of the battery list. -/
theorem claim_C2 (bats : List Battery) (car : CarState) (p1 : ℚ) (t : PyTime)
    (hne : bats ≠ []) :
    (∃ res, control_energy_flow bats car p1 t = .ok res) ∧
    ∀ res, control_energy_flow bats car p1 t = .ok res →
      ∀ b ∈ res.batteries,
        (b.charge ≤ 20 → 0 ≤ b.manualSetPower) ∧
        (100 ≤ b.charge → b.manualSetPower ≤ 0) := by
  refine ⟨control_energy_flow_total bats car p1 t hne, fun res h => ?_⟩
  obtain ⟨autoIdx, hlt, hsel, hres⟩ := cef_ok_elim h
  have hbat : res.batteries = enforce_boundaries (assign_manual_powers
      (bats.set autoIdx (auto_flagged (bats.getD autoIdx default)))
      autoIdx (effective_p1_of bats car p1 t) (firstIdx (·.isAutomatic) bats)) := by
    rw [hres]
  intro b hb
  rw [hbat, enforce_boundaries] at hb
  obtain ⟨a, _, rfl⟩ := List.mem_map.mp hb
  exact enforce_battery_safe a

/-- C3: for every well-formed non-empty input (including out-of-range input
`manualSetPower` values), `control_energy_flow` succeeds and every output
battery has `manualSetPower ∈ [-2500, 2500]`, with `manualSetPower = 0`
whenever the battery is automatic or not manual. -/
theorem claim_C3 (bats : List Battery) (car : CarState) (p1 : ℚ) (t : PyTime)
    (hne : bats ≠ []) :
    (∃ res, control_energy_flow bats car p1 t = .ok res) ∧
    ∀ res, control_energy_flow bats car p1 t = .ok res →
      ∀ b ∈ res.batteries,
        (-2500 ≤ b.manualSetPower ∧ b.manualSetPower ≤ 2500) ∧
        (b.isAutomatic = true → b.manualSetPower = 0) ∧
        (b.isManual = false → b.manualSetPower = 0) := by
  refine ⟨control_energy_flow_total bats car p1 t hne, fun res h => ?_⟩
  obtain ⟨autoIdx, hlt, hnew, hlen, hat, hother⟩ := cef_output_spec h
  intro b hb
  obtain ⟨j, hj, rfl⟩ := List.mem_iff_getElem.mp hb
  by_cases hje : j = autoIdx
  · subst hje
    have hval : res.batteries[j] = auto_flagged (bats.getD j default) := by
      rw [List.getElem?_eq_getElem hj] at hat
      exact Option.some.inj hat
    rw [hval]
    exact ⟨⟨by norm_num [auto_flagged], by norm_num [auto_flagged]⟩, fun _ => rfl, fun _ => rfl⟩
  · obtain ⟨b2, hb2, hbauto, hbnd, hzero, _⟩ := hother j (by omega) hje
    have hvb : res.batteries[j] = b2 := by
      rw [List.getElem?_eq_getElem hj] at hb2
      exact Option.some.inj hb2
    rw [hvb]
    refine ⟨hbnd, fun hc => ?_, hzero⟩
    rw [hbauto] at hc
    exact absurd hc (by simp)

/-- C9: `control_energy_flow` is a pure function of an input snapshot (the
embedding is state-free, matching the source's defensive per-battery copy),
and in the returned list the battery at each position keeps the input
battery's `charge`, `ip`, `effectivePower`, `efficiency` and
`internalResistance`; only the `isAutomatic`, `isManual` and `manualSetPower`
fields may differ. -/
theorem claim_C9 {bats : List Battery} {car : CarState} {p1 : ℚ} {t : PyTime}
    {res : ControlResult} (h : control_energy_flow bats car p1 t = .ok res) :
    res.batteries.length = bats.length ∧
    ∀ j, j < bats.length →
      (res.batteries.getD j default).charge = (bats.getD j default).charge ∧
      (res.batteries.getD j default).ip = (bats.getD j default).ip ∧
      (res.batteries.getD j default).effectivePower = (bats.getD j default).effectivePower ∧
      (res.batteries.getD j default).efficiency = (bats.getD j default).efficiency ∧
      (res.batteries.getD j default).internalResistance
        = (bats.getD j default).internalResistance := by
  obtain ⟨autoIdx, hlt, hnew, hlen, hat, hother⟩ := cef_output_spec h
  refine ⟨hlen, fun j hj => ?_⟩
  by_cases hje : j = autoIdx
  · subst hje
    have hgd : res.batteries.getD j default = auto_flagged (bats.getD j default) := by
      rw [List.getD_eq_getElem?_getD, hat]
      rfl
    rw [hgd]
    exact ⟨rfl, rfl, rfl, rfl, rfl⟩
  · obtain ⟨b2, hb2, _, _, _, f1, f2, f3, f4, f5⟩ := hother j hj hje
    have hgd : res.batteries.getD j default = b2 := by
      rw [List.getD_eq_getElem?_getD, hb2]
      rfl
    rw [hgd]
    exact ⟨f1, f2, f3, f4, f5⟩

/-- C5: `compute_car_intent` returns 0 when the car is not connected; on grid
surplus it returns `round(|usage| * 0.85)`, except `round(|usage|)` when every
battery is at SoC ≥ 90; on grid import it returns 1400 during low hours when
every battery is ≥ 90, or during low hours when not every battery is ≤ 20, and
0 otherwise. -/
theorem claim_C5 (car : CarState) (p1 : ℚ) (low : Bool) (bats : List Battery) :
    compute_car_intent car p1 low bats =
      if car.isCarConnected = false then 0
      else if p1 < 0 then
        (if ∀ b ∈ bats, (90 : ℚ) ≤ b.charge then pyRound |p1|
         else pyRound (|p1| * (85/100)))
      else if low = true ∧ (∀ b ∈ bats, (90 : ℚ) ≤ b.charge) then 1400
      else if low = true ∧ ¬(∀ b ∈ bats, b.charge ≤ (20 : ℚ)) then 1400
      else 0 := by
  have hA : (all_above bats 90 = true) ↔ ∀ b ∈ bats, (90 : ℚ) ≤ b.charge := by
    simp [all_above, List.all_eq_true]
  have hB : (all_below bats 20 = true) ↔ ∀ b ∈ bats, b.charge ≤ (20 : ℚ) := by
    simp [all_below, List.all_eq_true]
  cases hcc : car.isCarConnected with
  | false => simp [compute_car_intent, hcc]
  | true =>
    rw [if_neg (by simp [hcc])]
    simp only [compute_car_intent, hcc, Bool.not_true, Bool.false_eq_true, if_false]
    by_cases hp : p1 < 0
    · rw [if_pos hp, if_pos hp]
      by_cases h90 : ∀ b ∈ bats, (90 : ℚ) ≤ b.charge
      · rw [if_pos (hA.mpr h90), if_pos h90]
      · rw [if_neg (fun hc => h90 (hA.mp hc)), if_neg h90]
    · rw [if_neg hp, if_neg hp]
      cases low with
      | false => simp
      | true =>
        by_cases h90 : ∀ b ∈ bats, (90 : ℚ) ≤ b.charge
        · rw [if_pos (⟨rfl, h90⟩ : (true = true) ∧ ∀ b ∈ bats, (90 : ℚ) ≤ b.charge)]
          have hAt : all_above bats 90 = true := hA.mpr h90
          simp [hAt]
        · rw [if_neg (show ¬((true = true) ∧ ∀ b ∈ bats, (90 : ℚ) ≤ b.charge) from
            fun hc => h90 hc.2)]
          have hAf : all_above bats 90 = false := by
            cases hx : all_above bats 90
            · rfl
            · exact absurd (hA.mp hx) h90
          by_cases h20 : ∀ b ∈ bats, b.charge ≤ (20 : ℚ)
          · rw [if_neg (show ¬((true = true) ∧ ¬∀ b ∈ bats, b.charge ≤ (20 : ℚ)) from
              fun hc => hc.2 h20)]
            have hBt : all_below bats 20 = true := hB.mpr h20
            simp [hAf, hBt]
          · rw [if_pos (⟨rfl, h20⟩ : (true = true) ∧ ¬∀ b ∈ bats, b.charge ≤ (20 : ℚ))]
            have hBf : all_below bats 20 = false := by
              cases hx : all_below bats 20
              · rfl
              · exact absurd (hB.mp hx) h20
            simp [hAf, hBf]

theorem pyRound_nonneg {q : ℚ} (hq : 0 ≤ q) : 0 ≤ pyRound q := by
  unfold pyRound
  have hfl : (0 : ℤ) ≤ ⌊q⌋ := Int.floor_nonneg.mpr hq
  split
  · split
    · exact hfl
    · omega
  · have h2 : (0 : ℚ) ≤ q + 1/2 := by linarith
    exact Int.floor_nonneg.mpr h2

theorem compute_car_intent_nonneg (car : CarState) (p1 : ℚ) (low : Bool)
    (bats : List Battery) : 0 ≤ compute_car_intent car p1 low bats := by
  simp only [compute_car_intent]
  split_ifs
  · exact le_refl 0
  · exact pyRound_nonneg (abs_nonneg p1)
  · exact pyRound_nonneg (by positivity)
  · norm_num
  · norm_num
  · exact le_refl 0

/-- C10: `compute_car_intent` is non-negative on every input, so the
`CarIntendedPowerUsage` returned by `control_energy_flow` is always ≥ 0 — the
core never commands the car to discharge although the field is signed. -/
theorem claim_C10 {bats : List Battery} {car : CarState} {p1 : ℚ} {t : PyTime}
    {res : ControlResult} (h : control_energy_flow bats car p1 t = .ok res) :
    (∀ (car2 : CarState) (p2 : ℚ) (low2 : Bool) (bats2 : List Battery),
      0 ≤ compute_car_intent car2 p2 low2 bats2) ∧
    0 ≤ res.carIntendedPowerUsage := by
  refine ⟨compute_car_intent_nonneg, ?_⟩
  obtain ⟨autoIdx, hlt, hsel, hres⟩ := cef_ok_elim h
  have hcar : res.carIntendedPowerUsage = compute_car_intent car p1 (low_hours_of t) bats := by
    rw [hres]
  rw [hcar]
  exact compute_car_intent_nonneg car p1 (low_hours_of t) bats

/-- C6: with the default `soc_threshold = 5`, `select_auto_battery` returns
the scorer's candidate when no input battery is flagged automatic; otherwise,
with the incumbent `cur` (first flagged index) and `diff` the absolute SoC
difference between candidate and incumbent, it keeps the incumbent when
`diff < 5` and the incumbent's SoC is strictly inside `(20, 95)`, else
switches when the incumbent's SoC is `≤ 20` or `≥ 95`, else keeps the
incumbent when `|imbalance| < 1500`, else switches. -/
theorem claim_C6 (bats : List Battery) (ep1 : ℚ) (cand : Nat)
    (hc : get_auto_candidate bats ep1 = .ok cand) :
    ((∀ b ∈ bats, b.isAutomatic = false) → select_auto_battery bats ep1 5 = .ok cand) ∧
    (∀ cur, firstIdx (·.isAutomatic) bats = some cur →
      select_auto_battery bats ep1 5 = .ok
        (if |(bats.getD cand default).charge - (bats.getD cur default).charge| < 5 ∧
            20 < (bats.getD cur default).charge ∧ (bats.getD cur default).charge < 95 then cur
         else if (bats.getD cur default).charge ≤ 20 ∨ 95 ≤ (bats.getD cur default).charge then
           cand
         else if |ep1| < 1500 then cur
         else cand)) := by
  constructor
  · intro hall
    have hnone : firstIdx (·.isAutomatic) bats = none :=
      (firstIdx_eq_none_iff _ _).mpr hall
    simp only [select_auto_battery, hc, hnone]
  · intro cur hcur
    simp only [select_auto_battery, hc, hcur]
    split_ifs <;> rfl

/-- C8: in the neutral zone (`|imbalance| ≤ 100`) on a non-empty fleet,
`get_auto_candidate` returns the entry at the lower-middle position
(`len / 2` by integer division) of an ascending-SoC ordering of the battery
indices: the returned ordering is a permutation of all indices and its charges
are sorted in ascending order. -/
theorem claim_C8 (bats : List Battery) (ep1 : ℚ) (hne : bats ≠ [])
    (hmid : |ep1| ≤ 100) :
    get_auto_candidate bats ep1 = .ok ((List.insertionSort
        (fun a b => chargeAt bats a ≤ chargeAt bats b)
        (List.range bats.length)).getD (bats.length / 2) 0) ∧
    (List.insertionSort (fun a b => chargeAt bats a ≤ chargeAt bats b)
        (List.range bats.length)).Perm (List.range bats.length) ∧
    List.Sorted (· ≤ ·) ((List.insertionSort
        (fun a b => chargeAt bats a ≤ chargeAt bats b)
        (List.range bats.length)).map (chargeAt bats)) := by
  obtain ⟨hlo, hhi⟩ := abs_le.mp hmid
  have hlen : 0 < bats.length := List.length_pos.mpr hne
  have hsortlen : (List.insertionSort
      (fun a b => chargeAt bats a ≤ chargeAt bats b) (List.range bats.length)).length
      = bats.length := by
    rw [(List.perm_insertionSort _ _).length_eq, List.length_range]
  have hidx : bats.length / 2 < (List.insertionSort
      (fun a b => chargeAt bats a ≤ chargeAt bats b) (List.range bats.length)).length := by
    rw [hsortlen]
    exact Nat.div_lt_self hlen (by omega)
  refine ⟨?_, List.perm_insertionSort _ _, ?_⟩
  · simp only [get_auto_candidate]
    rw [if_neg (by linarith), if_neg (by linarith)]
    rw [List.getElem?_eq_getElem hidx]
    rw [List.getD_eq_getElem?_getD, List.getElem?_eq_getElem hidx]
    rfl
  · haveI : IsTotal Nat (fun a b => chargeAt bats a ≤ chargeAt bats b) :=
      ⟨fun a b => le_total _ _⟩
    haveI : IsTrans Nat (fun a b => chargeAt bats a ≤ chargeAt bats b) :=
      ⟨fun a b c hab hbc => le_trans hab hbc⟩
    exact List.pairwise_map.mpr (List.sorted_insertionSort _ _)

/-- C7: postcondition of the allocation stage.  With `maxCap` the maximum of
`max(0, 2500 - |effectivePower|)` over the incumbent automatic battery (if
any) and the newly selected one: if `|imbalance| ≤ 1500 + maxCap/2` every
non-automatic battery is set idle; otherwise every non-automatic battery is
either excluded (unsafe SoC for the flow direction) and idled, or set manual
with power `round(needPower * scale)` — biased to
`round(needPower * (0.5 + 0.5*bias) * scale)` when the SoC spread exceeds 10,
with `bias = |charge - avgCharge| / max(1, spread)` — clamped to
`[-2500, 2500]`, where `needPower = min(2500, |imbalance|) * direction` and
`scale = min(1, (|imbalance| - 1500)/1000)`; afterwards any helper whose
resulting setpoint is below 300 in magnitude is reverted to idle with
setpoint 0. -/
theorem claim_C7 (batOut : List Battery) (autoIdx : Nat) (ep1 : ℚ)
    (oldAutoIdx : Option Nat) (hlt : autoIdx < batOut.length)
    (hman : (batOut.getD autoIdx default).isManual = false) :
    ((|ep1| ≤ 1500 + (match oldAutoIdx with
        | some k => max (remaining_capacity (batOut.getD k default))
            (remaining_capacity (batOut.getD autoIdx default))
        | none => remaining_capacity (batOut.getD autoIdx default)) / 2) →
      ∀ j, j < batOut.length → j ≠ autoIdx →
        (assign_manual_powers batOut autoIdx ep1 oldAutoIdx)[j]? =
          some { batOut.getD j default with
            isManual := false, manualSetPower := 0, isAutomatic := false }) ∧
    (¬(|ep1| ≤ 1500 + (match oldAutoIdx with
        | some k => max (remaining_capacity (batOut.getD k default))
            (remaining_capacity (batOut.getD autoIdx default))
        | none => remaining_capacity (batOut.getD autoIdx default)) / 2) →
      ∀ j, j < batOut.length → j ≠ autoIdx →
        (assign_manual_powers batOut autoIdx ep1 oldAutoIdx)[j]? =
          some (
            if ((if 0 < ep1 then (-1 : ℤ) else 1) < 0
                  ∧ (batOut.getD j default).charge ≤ 20)
                ∨ ((if 0 < ep1 then (-1 : ℤ) else 1) > 0
                  ∧ 100 ≤ (batOut.getD j default).charge) then
              { batOut.getD j default with
                isManual := false, manualSetPower := 0, isAutomatic := false }
            else if |max (-2500) (min 2500 (
                if 10 < listMaxQ (batOut.map (·.charge)) - listMinQ (batOut.map (·.charge)) then
                  pyRound ((min 2500 |ep1| * (Int.cast (if 0 < ep1 then (-1 : ℤ) else 1) : ℚ))
                    * (1/2 + 1/2 * (|(batOut.getD j default).charge - avg_charge batOut|
                      / max 1 (listMaxQ (batOut.map (·.charge))
                          - listMinQ (batOut.map (·.charge)))))
                    * (min 1 ((|ep1| - 1500) / 1000)))
                else
                  pyRound ((min 2500 |ep1| * (Int.cast (if 0 < ep1 then (-1 : ℤ) else 1) : ℚ))
                    * (min 1 ((|ep1| - 1500) / 1000)))))| < 300 then
              { batOut.getD j default with
                isManual := false, manualSetPower := 0, isAutomatic := false }
            else
              { batOut.getD j default with
                isManual := true, isAutomatic := false,
                manualSetPower := max (-2500) (min 2500 (
                  if 10 < listMaxQ (batOut.map (·.charge))
                      - listMinQ (batOut.map (·.charge)) then
                    pyRound ((min 2500 |ep1| * (Int.cast (if 0 < ep1 then (-1 : ℤ) else 1) : ℚ))
                      * (1/2 + 1/2 * (|(batOut.getD j default).charge - avg_charge batOut|
                        / max 1 (listMaxQ (batOut.map (·.charge))
                            - listMinQ (batOut.map (·.charge)))))
                      * (min 1 ((|ep1| - 1500) / 1000)))
                  else
                    pyRound ((min 2500 |ep1| * (Int.cast (if 0 < ep1 then (-1 : ℤ) else 1) : ℚ))
                      * (min 1 ((|ep1| - 1500) / 1000))))) })) := by
  have hiff : (can_auto_handle ep1 (oldAutoIdx.map (fun i => batOut.getD i default))
      (batOut.getD autoIdx default) = true) ↔
      (|ep1| ≤ 1500 + (match oldAutoIdx with
        | some k => max (remaining_capacity (batOut.getD k default))
            (remaining_capacity (batOut.getD autoIdx default))
        | none => remaining_capacity (batOut.getD autoIdx default)) / 2) := by
    cases oldAutoIdx with
    | none => simp [can_auto_handle]
    | some k => simp [can_auto_handle]
  constructor
  · intro hs j hj hne
    rw [assign_manual_powers_getElem?, if_pos (hiff.mpr hs),
      List.getElem?_eq_getElem hj, getD_lt hj]
    simp [hne]
    rfl
  · intro hs j hj hne
    rw [assign_manual_powers_getElem?, if_neg (fun hc => hs (hiff.mp hc)),
      if_neg hne, List.getElem?_eq_getElem hj, getD_lt hj,
      show ∀ (f : Battery → Battery) (x : Battery), Option.map f (some x) = some (f x)
        from fun f x => rfl]
    by_cases hexc : ((if 0 < ep1 then (-1 : ℤ) else 1) < 0 ∧ batOut[j].charge ≤ 20)
        ∨ ((if 0 < ep1 then (-1 : ℤ) else 1) > 0 ∧ 100 ≤ batOut[j].charge)
    · simp only [loop_update]
      rw [if_pos hexc, cutoff_battery_of_not_manual rfl, if_pos hexc]
      rfl
    · simp only [loop_update]
      rw [if_neg hexc, if_neg hexc]
      simp only [cutoff_battery, helper_battery, helper_power]
      split_ifs <;>
        first
          | rfl
          | (rename_i hA hB
             first
               | exact absurd hA.2 hB
               | exact absurd ⟨trivial, hB⟩ hA)

/-- On the empty battery list the selection stage always fails: `ValueError`
from `max()`/`min()` over the empty candidate sequence in the discharge and
charge branches, `IndexError` from indexing the empty sorted list in the
neutral branch. -/
theorem select_auto_battery_nil (ep thr : ℚ) :
    select_auto_battery [] ep thr =
      if 100 < ep then .error PyErr.valueError
      else if ep < -100 then .error PyErr.valueError
      else .error PyErr.indexError := by
  simp only [select_auto_battery, get_auto_candidate]
  by_cases h1 : (100 : ℚ) < ep
  · rw [if_pos h1, if_pos h1]
    rfl
  · rw [if_neg h1, if_neg h1]
    by_cases h2 : ep < -100
    · rw [if_pos h2, if_pos h2]
      rfl
    · rw [if_neg h2, if_neg h2]
      rfl

/-- C4 counterexample: on an empty battery list (well-formed car state, zero
grid usage, weekday noon) `control_energy_flow` fails with an uncontrolled
`IndexError` (from indexing the empty sorted candidate list), not with the
spec's `InvalidInput` condition. -/
theorem claim_C4_counterexample :
    control_energy_flow [] ⟨false⟩ 0 ⟨0, 12⟩ = .error PyErr.indexError ∧
    PyErr.indexError ≠ PyErr.invalidInput := by
  constructor
  · rw [control_energy_flow_eq, select_auto_battery_nil]
    have hint : compute_car_intent ⟨false⟩ 0 (low_hours_of ⟨0, 12⟩) [] = 0 := rfl
    rw [hint]
    norm_num
  · intro hcontra
    cases hcontra

/-- C4 amended: on an empty battery list `control_energy_flow` always fails,
but with an uncontrolled Python error — `ValueError` from `max()`/`min()` of
an empty candidate sequence, or `IndexError` from indexing the empty sorted
list — never with an explicit `InvalidInput` condition; no division by zero
occurs (`avg_charge` guards the empty list and is not reached). -/
theorem claim_C4_amended (car : CarState) (p1 : ℚ) (t : PyTime) :
    control_energy_flow [] car p1 t = .error PyErr.valueError ∨
    control_energy_flow [] car p1 t = .error PyErr.indexError := by
  rw [control_energy_flow_eq, select_auto_battery_nil]
  split_ifs
  · left
    rfl
  · left
    rfl
  · right
    rfl

/-! ### Concrete runs used to witness the hypothesized theorems -/

def witness_battery (c : ℚ) (auto : Bool) : Battery :=
  { charge := c, isManual := false, manualSetPower := 0, isAutomatic := auto,
    ip := "bat", effectivePower := 0, efficiency := 1, internalResistance := 0 }

def witness_car : CarState := ⟨false⟩

def witness_time : PyTime := ⟨0, 12⟩

def witness_fleet : List Battery := [witness_battery 50 false]

def witness_result : ControlResult :=
  { batteries := [{ witness_battery 50 false with isAutomatic := true }],
    carIntendedPowerUsage := 0, effectiveP1 := 0, oldAutoIdx := none,
    newAutoIdx := 0, lowHours := false }

def witness_fleet2 : List Battery := [witness_battery 15 false, witness_battery 50 true]

def witness_result2 : ControlResult :=
  { batteries := [witness_battery 15 false,
      { witness_battery 50 false with isAutomatic := true }],
    carIntendedPowerUsage := 0, effectiveP1 := 0, oldAutoIdx := some 1,
    newAutoIdx := 1, lowHours := false }

theorem list_range_two : List.range 2 = [0, 1] := rfl

theorem witness_run : control_energy_flow witness_fleet witness_car 0 witness_time
    = .ok witness_result := by
  norm_num [control_energy_flow, witness_fleet, witness_car, witness_time,
    witness_result, witness_battery, copy_battery, low_hours_of,
    compute_car_intent, all_above, all_below, select_auto_battery,
    get_auto_candidate, firstIdx, chargeAt, weighted_charge, pyMaxBy, pyMinBy,
    List.insertionSort, List.orderedInsert, assign_manual_powers,
    can_auto_handle, remaining_capacity, mapWithIdxFrom, idle_battery,
    enforce_boundaries, enforce_battery]

theorem witness_run2 : control_energy_flow witness_fleet2 witness_car 0 witness_time
    = .ok witness_result2 := by
  norm_num [control_energy_flow, witness_fleet2, witness_car, witness_time,
    witness_result2, witness_battery, copy_battery, low_hours_of,
    compute_car_intent, all_above, all_below, select_auto_battery,
    get_auto_candidate, firstIdx, chargeAt, weighted_charge, pyMaxBy, pyMinBy,
    list_range_two, List.insertionSort, List.orderedInsert,
    assign_manual_powers, can_auto_handle, remaining_capacity, mapWithIdxFrom,
    idle_battery, listMaxQ, listMinQ, avg_charge, assign_step, loop_update,
    cutoff_battery, enforce_boundaries, enforce_battery, List.getD]

/-- Witness for C1 at a concrete one-battery fleet. -/
theorem claim_C1_witness :
    (witness_result.batteries.filter (fun b => b.isAutomatic)).length = 1 :=
  ((claim_C1 witness_fleet witness_car 0 witness_time
      (by simp [witness_fleet])).2 witness_result witness_run).1

/-- Witness for C2: the depleted battery (SoC 15) of a concrete run keeps a
non-negative setpoint. -/
theorem claim_C2_witness :
    (0 : ℤ) ≤ (witness_result2.batteries.getD 0 default).manualSetPower :=
  (((claim_C2 witness_fleet2 witness_car 0 witness_time
      (by simp [witness_fleet2])).2 witness_result2 witness_run2
      (witness_result2.batteries.getD 0 default)
      (by simp [witness_result2])).1)
    (by norm_num [witness_result2, witness_battery])

/-- Witness for C3 at a concrete run. -/
theorem claim_C3_witness :
    -2500 ≤ (witness_result.batteries.getD 0 default).manualSetPower ∧
    (witness_result.batteries.getD 0 default).manualSetPower ≤ 2500 :=
  (((claim_C3 witness_fleet witness_car 0 witness_time
      (by simp [witness_fleet])).2 witness_result witness_run
      (witness_result.batteries.getD 0 default)
      (by simp [witness_result])).1)

/-- Witness for C9 at a concrete run. -/
theorem claim_C9_witness :
    (witness_result.batteries.getD 0 default).charge
      = (witness_fleet.getD 0 default).charge :=
  ((claim_C9 witness_run).2 0 (by simp [witness_fleet])).1

/-- Witness for C10 at a concrete run. -/
theorem claim_C10_witness : 0 ≤ witness_result.carIntendedPowerUsage :=
  (claim_C10 witness_run).2

def witness_fleet3 : List Battery := [witness_battery 30 true, witness_battery 60 false]

/-- Witness for C6: with incumbent SoC 30, candidate SoC 60 and imbalance
2000, the hysteresis switches to the candidate. -/
theorem claim_C6_witness : select_auto_battery witness_fleet3 2000 5 = .ok 1 := by
  have h := (claim_C6 witness_fleet3 2000 1
      (by norm_num [witness_fleet3, witness_battery, get_auto_candidate, chargeAt,
        weighted_charge, pyMaxBy, list_range_two, List.getD])).2 0
      (by simp [witness_fleet3, witness_battery, firstIdx])
  rw [h]
  norm_num [witness_fleet3, witness_battery, List.getD]

def witness_stage_fleet : List Battery := [witness_battery 50 true, witness_battery 52 false]

/-- Witness for C7: with imbalance 4000 and no incumbent, the stage sets the
non-automatic battery to manual discharge at the clamp. -/
theorem claim_C7_witness :
    (assign_manual_powers witness_stage_fleet 0 4000 none)[1]? =
      some { witness_battery 52 false with
        isManual := true, isAutomatic := false, manualSetPower := -2500 } := by
  have h := (claim_C7 witness_stage_fleet 0 4000 none
      (by norm_num [witness_stage_fleet])
      (by simp [witness_stage_fleet, witness_battery, List.getD])).2
      (by norm_num [witness_stage_fleet, witness_battery, remaining_capacity, List.getD])
      1 (by norm_num [witness_stage_fleet]) (by norm_num)
  rw [h]
  norm_num [witness_stage_fleet, witness_battery, List.getD, listMaxQ, listMinQ,
    avg_charge, pyRound]

/-- Witness for C8: a one-battery fleet in the neutral zone yields index 0. -/
theorem claim_C8_witness : get_auto_candidate witness_fleet 0 = .ok 0 := by
  have h := (claim_C8 witness_fleet 0 (by simp [witness_fleet]) (by norm_num)).1
  simpa [witness_fleet, List.insertionSort, List.orderedInsert] using h

end EnergyController
